import Mathlib

/-!
Shallow embedding of `src/main.cpp` (decorator-example): a predicate algebra
over integer states (the `IState` class hierarchy) and a Monte-Carlo
probability estimator (`ProbabilityTest::test`).

Modelling notes.

* `State = int` is modelled as `ℤ`.  Every comparison the source performs on
  states is a plain value comparison, and the experiment keeps all values well
  inside the 32-bit range, so no wraparound is observable in the claims below.

* `std::default_random_engine` is implementation-defined; we model the GNU
  libstdc++ choice `minstd_rand0`, the linear congruential engine
  `x ↦ 16807 * x mod 2147483647` whose call updates the state and returns the
  updated state, and whose constructor maps a seed `s` to `s mod 2147483647`,
  replaced by `1` when that remainder is `0` (the increment `c` is `0`).
  The `seed` parameter of `ProbabilityTest::test` is a C++ `unsigned`, hence
  the reduction modulo `2^32` in `engInit`.

* `std::uniform_int_distribution<int>` is modelled after the libstdc++
  algorithm: with `urange = b - a` computed in unsigned 64-bit arithmetic and
  `urngRange = 2147483645` (engine max minus engine min), the downscaling
  branch draws engine values, rejecting `ret = e - 1 ≥ past` with
  `past = (urange + 1) * (urngRange / (urange + 1))`, and returns
  `a + ret / scaling`; the upscaling branch composes a recursive draw with one
  more engine value; when the ranges coincide the engine value is passed
  through.  The rejection/retry loops of the source are given explicit fuel
  (`drawFuel`); the fallback branch at fuel `0` is unreachable for every
  concrete evaluation performed below, which all accept within the provided
  fuel.  One `drawU` call is one distribution draw, exactly one
  `dstr(reng)` expression of the source.

* `float` is modelled by exact rationals extended with the IEEE special values
  `nan` and `inf`; `fdiv` models `static_cast<float>(g) / static_cast<float>(n)`
  on nonnegative integers under IEEE-754 semantics (`0/0 = NaN`), with
  rounding of the quotient not modelled (the quotient is kept exact in `ℚ`).

* A C++ null-pointer dereference (calling `contains` through a null `base`,
  `first` or `second` pointer) has no defined result; `IState.contains`
  returns `none` exactly at those evaluations, and `none` propagates outward,
  modelling the absence of any defined returned value.
-/

/-- Modulus of `minstd_rand0`, the libstdc++ `default_random_engine`. -/
def lcgM : ℕ := 2147483647

/-- Multiplier of `minstd_rand0`. -/
def lcgA : ℕ := 16807

/-- `2^32`, the modulus of the C++ `unsigned` seed parameter. -/
def uintMod : ℕ := 4294967296

/-- `2^64`, the modulus of the unsigned 64-bit arithmetic used by the
libstdc++ `uniform_int_distribution` on this platform. -/
def ulongMod : ℕ := 18446744073709551616

/-- Engine range `max - min = (lcgM - 1) - 1` of `minstd_rand0`. -/
def urngRange : ℕ := 2147483645

/-- Fuel for the rejection/retry loops of `uniform_int_distribution`. -/
def drawFuel : ℕ := 2147483647

/-- One engine step: the engine call updates the state and returns it. -/
def lcgNext (x : ℕ) : ℕ := (lcgA * x) % lcgM

/-- Seeding of `std::default_random_engine reng(seed)` from an `unsigned`. -/
def engInit (seed : ℕ) : ℕ :=
  let s := (seed % uintMod) % lcgM
  if s = 0 then 1 else s

/-- One `uniform_int_distribution` draw over an unsigned range `urange`,
returning the offset in `[0, urange]` and the new engine state; fueled
version of the libstdc++ downscale / upscale / passthrough algorithm. -/
def drawU : ℕ → ℕ → ℕ → ℕ × ℕ
  | 0, _, x => (0, x)
  | fuel+1, urange, x =>
    if urange < urngRange then
      let uerange := urange + 1
      let scaling := urngRange / uerange
      let past := uerange * scaling
      let x1 := lcgNext x
      let ret := x1 - 1
      if ret < past then (ret / scaling, x1)
      else drawU fuel urange x1
    else if urngRange < urange then
      let uerngrange := urngRange + 1
      let p := drawU fuel (urange / uerngrange) x
      let tmp := uerngrange * p.1
      let x2 := lcgNext p.2
      let ret := tmp + (x2 - 1)
      if urange < ret ∨ ret < tmp then drawU fuel urange x2
      else (ret, x2)
    else
      let x1 := lcgNext x
      (x1 - 1, x1)

/-- The unsigned range `uctype(b) - uctype(a)` of the distribution. -/
def urangeOf (a b : ℤ) : ℕ := ((b - a).emod ulongMod).toNat

/-- One `dstr(reng)` call of the source for the distribution over `[a, b]`:
the drawn value and the new engine state. -/
def drawOne (a b : ℤ) (x : ℕ) : ℤ × ℕ :=
  let r := drawU drawFuel (urangeOf a b) x
  (a + (r.1 : ℤ), r.2)

/-- The `IState` hierarchy of the source.  `InverseState` and `IntersectState`
hold their children through `const IState*` pointers that the zero-argument
`create()` factories leave null, hence the `Option`; `UnifyState` holds
references, which cannot be null. -/
inductive IState where
  | DiscreteState (s0 : ℤ)
  | SegmentState (begin_s0 end_s0 : ℤ)
  | InverseState (base : Option IState)
  | IntersectState (first second : Option IState)
  | UnifyState (first second : IState)

/-- The virtual `contains` of each class.  `none` marks a null-pointer
dereference (undefined behaviour in the source); `&&` and `||` short-circuit
as in C++, so a null second child behind a false (resp. true) first child is
never dereferenced. -/
def IState.contains : IState → ℤ → Option Bool
  | .DiscreteState s0, s => some (decide (s = s0))
  | .SegmentState begin_s0 end_s0, s =>
      some (decide (begin_s0 ≤ s) && decide (end_s0 ≥ s))
  | .InverseState none, _ => none
  | .InverseState (some base), s =>
      match base.contains s with
      | none => none
      | some t => some (!t)
  | .IntersectState none _, _ => none
  | .IntersectState (some first) second, s =>
      match first.contains s with
      | none => none
      | some false => some false
      | some true =>
        match second with
        | none => none
        | some q => q.contains s
  | .UnifyState first second, s =>
      match first.contains s with
      | none => none
      | some true => some true
      | some false => second.contains s

/-- Well-formedness: no null child pointer anywhere in the tree.  This is the
shape every predicate built by the two-argument factories from leaves has. -/
def IState.wf : IState → Bool
  | .DiscreteState _ => true
  | .SegmentState _ _ => true
  | .InverseState none => false
  | .InverseState (some base) => base.wf
  | .IntersectState none _ => false
  | .IntersectState (some _) none => false
  | .IntersectState (some first) (some second) => first.wf && second.wf
  | .UnifyState first second => first.wf && second.wf

/-- A C++ `float` value: the IEEE specials plus an exact rational payload. -/
inductive FloatVal where
  | nan
  | inf
  | val (q : ℚ)
deriving DecidableEq

/-- `static_cast<float>(g) / static_cast<float>(n)` for naturals under
IEEE-754: `0/0` is NaN, `g/0` with positive `g` is infinity, and otherwise
the exact quotient (rounding not modelled). -/
def fdiv (g n : ℕ) : FloatVal :=
  if n = 0 then (if g = 0 then .nan else .inf) else .val ((g : ℚ) / (n : ℚ))

/-- The `ProbabilityTest` class: its two `State` fields. -/
structure ProbabilityTest where
  E_min : ℤ
  E_max : ℤ

/-- The counting loop of `ProbabilityTest::test`
(`for (cnt = 0; cnt != test_count; cnt++) if (system.contains(dstr(reng))) good++`):
remaining iterations, accumulated `good`, engine state.  `none` when a
`contains` evaluation dereferences a null pointer. -/
def testLoop (system : IState) (a b : ℤ) : ℕ → ℕ → ℕ → Option (ℕ × ℕ)
  | 0, good, x => some (good, x)
  | k+1, good, x =>
    let d := drawOne a b x
    match system.contains d.1 with
    | none => none
    | some t => testLoop system a b k (if t then good + 1 else good) d.2

/-- `ProbabilityTest::test`: seed the engine, make one discarded draw
(line `dstr(reng);`), run the counting loop, return `good / test_count` as a
float. -/
def ProbabilityTest.test (pt : ProbabilityTest) (system : IState)
    (test_count : ℕ) (seed : ℕ) : Option FloatVal :=
  let x0 := engInit seed
  let x1 := (drawOne pt.E_min pt.E_max x0).2
  match testLoop system pt.E_min pt.E_max test_count 0 x1 with
  | none => none
  | some r => some (fdiv r.1 test_count)

/-- Engine state after `i` distribution draws over `[a, b]` starting from
engine state `x`. -/
def streamState (a b : ℤ) (x : ℕ) : ℕ → ℕ
  | 0 => x
  | i+1 => (drawOne a b (streamState a b x i)).2

/-- The `i`-th (0-indexed) value of the distribution's draw sequence over
`[a, b]` starting from engine state `x`. -/
def streamVal (a b : ℤ) (x : ℕ) (i : ℕ) : ℤ :=
  (drawOne a b (streamState a b x i)).1

/-- The list of the next `k` drawn values starting from engine state `x`. -/
def drawsFrom (a b : ℤ) : ℕ → ℕ → List ℤ
  | _, 0 => []
  | x, k+1 => (drawOne a b x).1 :: drawsFrom a b (drawOne a b x).2 k

/-- All values a `ProbabilityTest::test` run with `test_count = n` draws from
the distribution: the discarded warm-up draw followed by the `n` counted
draws. -/
def runTrace (a b : ℤ) (n seed : ℕ) : List ℤ :=
  drawsFrom a b (engInit seed) (n + 1)

/-- The drawn values the counting loop actually evaluates the predicate on:
values `1, …, n` (0-indexed) of the seeded generator's draw sequence, i.e.
values `2, …, n+1` in 1-indexed counting. -/
def usedDraws (a b : ℤ) (seed n : ℕ) : List ℤ :=
  (List.range n).map (fun i => streamVal a b (engInit seed) (i + 1))

/-- Boolean test used for counting: the `contains` evaluation is defined and
returns `true`. -/
def containsTrue (system : IState) (v : ℤ) : Bool :=
  system.contains v == some true

/-- Modelled from the spec: the estimate claim C1 describes, namely the
fraction of the FIRST `n` values of the seeded generator's uniform draw
sequence that satisfy the predicate (no warm-up draw).  This definition
follows the spec's words and is compared against `ProbabilityTest.test`,
which is translated from the source. -/
def specFirstDrawsEstimate (pt : ProbabilityTest) (system : IState)
    (n seed : ℕ) : FloatVal :=
  fdiv (((List.range n).map
      (streamVal pt.E_min pt.E_max (engInit seed))).countP
      (containsTrue system)) n

theorem streamState_shift (a b : ℤ) (x : ℕ) :
    ∀ i, streamState a b (drawOne a b x).2 i = streamState a b x (i + 1)
  | 0 => rfl
  | i+1 => by
    simp only [streamState, streamState_shift a b x i]

theorem streamVal_shift (a b : ℤ) (x : ℕ) (i : ℕ) :
    streamVal a b (drawOne a b x).2 i = streamVal a b x (i + 1) := by
  simp only [streamVal, streamState_shift]

theorem drawsFrom_length (a b : ℤ) :
    ∀ k x, (drawsFrom a b x k).length = k
  | 0, x => rfl
  | k+1, x => by
    simp only [drawsFrom, List.length_cons, drawsFrom_length a b k]

theorem drawsFrom_eq_map (a b : ℤ) :
    ∀ k x, drawsFrom a b x k = (List.range k).map (streamVal a b x)
  | 0, _ => rfl
  | k+1, x => by
    rw [drawsFrom, drawsFrom_eq_map a b k, List.range_succ_eq_map]
    simp only [List.map_cons, List.map_map]
    refine congrArg₂ _ rfl ?_
    refine congrArg₂ _ (funext fun i => ?_) rfl
    simp [Function.comp, streamVal_shift, Nat.succ_eq_add_one]

theorem IState.contains_some_of_wf :
    (p : IState) → p.wf = true → (s : ℤ) → ∃ t, p.contains s = some t
  | .DiscreteState _, _, _ => ⟨_, rfl⟩
  | .SegmentState _ _, _, _ => ⟨_, rfl⟩
  | .InverseState none, h, _ => by simp [IState.wf] at h
  | .InverseState (some base), h, s => by
    obtain ⟨t, ht⟩ := contains_some_of_wf base (by simpa [IState.wf] using h) s
    exact ⟨!t, by simp [IState.contains, ht]⟩
  | .IntersectState none _, h, _ => by simp [IState.wf] at h
  | .IntersectState (some _) none, h, _ => by simp [IState.wf] at h
  | .IntersectState (some first) (some second), h, s => by
    rw [IState.wf, Bool.and_eq_true] at h
    obtain ⟨tf, htf⟩ := contains_some_of_wf first h.1 s
    obtain ⟨tg, htg⟩ := contains_some_of_wf second h.2 s
    cases tf with
    | false => exact ⟨false, by simp [IState.contains, htf]⟩
    | true => exact ⟨tg, by simp [IState.contains, htf, htg]⟩
  | .UnifyState first second, h, s => by
    rw [IState.wf, Bool.and_eq_true] at h
    obtain ⟨tf, htf⟩ := contains_some_of_wf first h.1 s
    obtain ⟨tg, htg⟩ := contains_some_of_wf second h.2 s
    cases tf with
    | true => exact ⟨true, by simp [IState.contains, htf]⟩
    | false => exact ⟨tg, by simp [IState.contains, htf, htg]⟩

theorem testLoop_eq (system : IState) (a b : ℤ) (hwf : system.wf = true) :
    ∀ k good x, testLoop system a b k good x =
      some (good + (drawsFrom a b x k).countP (containsTrue system),
        streamState a b x k)
  | 0, good, x => by simp [testLoop, drawsFrom, streamState]
  | k+1, good, x => by
    obtain ⟨t, ht⟩ := system.contains_some_of_wf hwf (drawOne a b x).1
    rw [testLoop]
    simp only [ht]
    rw [testLoop_eq system a b hwf k _ (drawOne a b x).2]
    have hstate : streamState a b (drawOne a b x).2 k = streamState a b x (k+1) :=
      streamState_shift a b x k
    have hdraws : drawsFrom a b x (k+1) =
        (drawOne a b x).1 :: drawsFrom a b (drawOne a b x).2 k := rfl
    rw [hstate, hdraws, List.countP_cons]
    have hp : containsTrue system (drawOne a b x).1 = t := by
      simp [containsTrue, ht]
    rw [hp]
    cases t with
    | false => simp
    | true => simp; omega

/-- Structural description of `ProbabilityTest::test` for a well-formed
predicate: the returned float is `good / test_count` where `good` counts the
satisfied values among draws `1, …, n` (0-indexed) of the seeded generator's
draw sequence; draw `0` is discarded. -/
theorem ProbabilityTest.test_eq_usedDraws (pt : ProbabilityTest)
    (system : IState) (n seed : ℕ) (hwf : system.wf = true) :
    pt.test system n seed =
      some (fdiv ((usedDraws pt.E_min pt.E_max seed n).countP
        (containsTrue system)) n) := by
  have hloop := testLoop_eq system pt.E_min pt.E_max hwf n 0
    (drawOne pt.E_min pt.E_max (engInit seed)).2
  have hdraws : drawsFrom pt.E_min pt.E_max
      (drawOne pt.E_min pt.E_max (engInit seed)).2 n =
      usedDraws pt.E_min pt.E_max seed n := by
    rw [drawsFrom_eq_map, usedDraws]
    exact List.map_congr_left fun i _ => streamVal_shift pt.E_min pt.E_max _ i
  rw [hdraws] at hloop
  simp only [ProbabilityTest.test, hloop, Nat.zero_add]

/-- Claim C1, amended: `ProbabilityTest::test` seeds the engine with `seed`,
makes one draw whose value it discards, then draws exactly `n` further values
from the closed range, evaluates `contains` on each of those, and returns the
count of true evaluations divided by `n`; the returned value is the fraction
of values `2, …, n+1` (1-indexed) of the seeded generator's uniform draw
sequence that satisfy the predicate — not of values `1, …, n`. -/
theorem claim1_fraction_of_post_warmup_draws (pt : ProbabilityTest)
    (system : IState) (n seed : ℕ) (hwf : system.wf = true) (hn : 1 ≤ n) :
    pt.test system n seed =
      some (FloatVal.val
        (((usedDraws pt.E_min pt.E_max seed n).countP (containsTrue system) : ℚ)
          / (n : ℚ))) := by
  rw [pt.test_eq_usedDraws system n seed hwf, fdiv, if_neg (by omega)]

/-- Witness for claim C1's amended theorem at a concrete input. -/
theorem claim1_witness :
    (ProbabilityTest.mk 0 1).test (IState.DiscreteState 1) 2 1 =
      some (FloatVal.val (((usedDraws 0 1 1 2).countP
        (containsTrue (IState.DiscreteState 1)) : ℚ) / (2 : ℚ))) :=
  claim1_fraction_of_post_warmup_draws ⟨0, 1⟩ (IState.DiscreteState 1) 2 1
    rfl (by decide)

/-- Counterexample to claim C1 as stated: over the range `[0, 1]` with seed
`1` and two samples, the modelled generator draws `0, 0, 1, …`; the code
returns `1/2` (it discards the first `0` and counts over `0, 1`), while the
fraction of the FIRST two values of the seeded generator's sequence
satisfying `Discrete(1)` is `0`. -/
theorem claim1_counterexample :
    (ProbabilityTest.mk 0 1).test (IState.DiscreteState 1) 2 1 ≠
      some (specFirstDrawsEstimate ⟨0, 1⟩ (IState.DiscreteState 1) 2 1) := by
  intro hc
  have h1 : (ProbabilityTest.mk 0 1).test (IState.DiscreteState 1) 2 1 =
      some (FloatVal.val (1 / 2)) := by rfl
  have h2 : specFirstDrawsEstimate ⟨0, 1⟩ (IState.DiscreteState 1) 2 1 =
      FloatVal.val (0 / 2) := by rfl
  rw [h1, h2] at hc
  have h3 := Option.some.inj hc
  have h4 : (1 / 2 : ℚ) = 0 / 2 := by injection h3
  norm_num at h4

/-- Claim C2: with `test_count = 0` the loop body never runs, `good = 0`, and
the returned value is the float division `0/0`, i.e. the defined IEEE-754
constant NaN — for every predicate (even an ill-formed one: no `contains`
call is made), every range and every seed; no crash, no unspecified value. -/
theorem claim2_zero_samples_returns_nan (pt : ProbabilityTest)
    (system : IState) (seed : ℕ) :
    pt.test system 0 seed = some FloatVal.nan := rfl

/-- Claim C3: evaluating `contains` on an `InverseState` built by the
zero-argument `create()` dereferences the null `base` pointer: the source
reaches undefined behaviour (modelled as `none`, the absence of any defined
result) instead of failing fast with a defined-behaviour error. -/
theorem claim3_null_base_contains_undefined (s : ℤ) :
    (IState.InverseState none).contains s = none := rfl

/-- Claim C4: `test` is a pure function of predicate, range, sample count and
seed — the engine is freshly constructed from `seed` inside the call and no
other state exists — so two invocations with identical arguments return
bit-identical results and produce the identical sequence of draws. -/
theorem claim4_determinism (pt : ProbabilityTest) (system : IState)
    (n seed : ℕ) :
    pt.test system n seed = pt.test system n seed ∧
      runTrace pt.E_min pt.E_max n seed = runTrace pt.E_min pt.E_max n seed :=
  ⟨rfl, rfl⟩

/-- Claim C5, amended: every run of `test` terminates with a defined result,
and it consumes exactly `test_count + 1` distribution draws: the discarded
warm-up draw plus the `test_count` counted draws — not exactly `test_count`. -/
theorem claim5_terminates_after_n_plus_one_draws (pt : ProbabilityTest)
    (system : IState) (n seed : ℕ) (hwf : system.wf = true) :
    (∃ v, pt.test system n seed = some v) ∧
      (runTrace pt.E_min pt.E_max n seed).length = n + 1 := by
  refine ⟨⟨_, pt.test_eq_usedDraws system n seed hwf⟩, ?_⟩
  rw [runTrace, drawsFrom_length]

/-- Witness for claim C5's amended theorem at a concrete input. -/
theorem claim5_witness :
    (∃ v, (ProbabilityTest.mk 0 1).test (IState.DiscreteState 1) 2 1 = some v) ∧
      (runTrace 0 1 2 1).length = 2 + 1 :=
  claim5_terminates_after_n_plus_one_draws ⟨0, 1⟩ (IState.DiscreteState 1) 2 1 rfl

/-- Counterexample to claim C5 as stated: a run with `test_count = 5` (range
`[0, 1]`, seed `1`) consumes 6 distribution draws, not 5. -/
theorem claim5_counterexample : (runTrace 0 1 5 1).length ≠ 5 := by
  rw [runTrace, drawsFrom_length]
  decide

/-- Claim C6: for a well-formed predicate and `test_count ≥ 1` the returned
value is `good / test_count` with `0 ≤ good ≤ test_count`, hence lies in the
closed interval `[0, 1]`. -/
theorem claim6_result_in_unit_interval (pt : ProbabilityTest)
    (system : IState) (n seed : ℕ) (hwf : system.wf = true) (hn : 1 ≤ n) :
    ∃ q : ℚ, pt.test system n seed = some (FloatVal.val q) ∧
      0 ≤ q ∧ q ≤ 1 := by
  have hg : (usedDraws pt.E_min pt.E_max seed n).countP (containsTrue system)
      ≤ n := by
    have h1 := List.countP_le_length (p := containsTrue system)
      (l := usedDraws pt.E_min pt.E_max seed n)
    have h2 : (usedDraws pt.E_min pt.E_max seed n).length = n := by
      rw [usedDraws, List.length_map, List.length_range]
    omega
  refine ⟨((usedDraws pt.E_min pt.E_max seed n).countP (containsTrue system) : ℚ)
    / (n : ℚ), ?_, ?_, ?_⟩
  · rw [pt.test_eq_usedDraws system n seed hwf, fdiv, if_neg (by omega)]
  · exact div_nonneg (Nat.cast_nonneg _) (Nat.cast_nonneg _)
  · have hnpos : (0 : ℚ) < (n : ℚ) := by exact_mod_cast hn
    exact (div_le_one hnpos).mpr (by exact_mod_cast hg)

/-- Witness for claim C6 at a concrete input. -/
theorem claim6_witness :
    ∃ q : ℚ, (ProbabilityTest.mk 0 1).test (IState.DiscreteState 1) 2 1 =
      some (FloatVal.val q) ∧ 0 ≤ q ∧ q ≤ 1 :=
  claim6_result_in_unit_interval ⟨0, 1⟩ (IState.DiscreteState 1) 2 1 rfl
    (by decide)

/-- Claim C7: `SegmentState(lo, hi).contains(s)` is true exactly when
`lo ≤ s ≤ hi`, and when `lo > hi` it is false for every `s` (the inverted
range is not validated and never matches). -/
theorem claim7_segment_contains (lo hi s : ℤ) :
    ((IState.SegmentState lo hi).contains s = some true ↔ lo ≤ s ∧ s ≤ hi) ∧
      (hi < lo → (IState.SegmentState lo hi).contains s = some false) := by
  constructor
  · simp [IState.contains]
  · intro h
    simp [IState.contains]
    omega

/-- Witness for claim C7 at concrete inputs. -/
theorem claim7_witness : (IState.SegmentState 5 3).contains 4 = some false :=
  (claim7_segment_contains 5 3 4).2 (by decide)

/-- Claim C8: De Morgan's law over the predicate algebra — for all child
predicates `a`, `b` (null children included: both sides then reach the same
dereference) and every state `s`, `Not(And(a, b))` and `Or(Not a, Not b)`
evaluate `contains` identically. -/
theorem claim8_de_morgan (a b : Option IState) (s : ℤ) :
    (IState.InverseState (some (IState.IntersectState a b))).contains s =
      (IState.UnifyState (IState.InverseState a) (IState.InverseState b)).contains s := by
  match a, b with
  | none, _ => rfl
  | some p, none =>
    rcases hp : p.contains s with _ | tp
    · simp [IState.contains, hp]
    · cases tp <;> simp [IState.contains, hp]
  | some p, some q =>
    rcases hp : p.contains s with _ | tp
    · simp [IState.contains, hp]
    · rcases hq : q.contains s with _ | tq
      · cases tp <;> simp [IState.contains, hp, hq]
      · cases tp <;> cases tq <;> simp [IState.contains, hp, hq]

/-- Claim C9: negation is boolean complement and double negation is the
identity: for every predicate `p` (as the defined base of the `Not`) and
state `s`, `Not(p).contains s` is the negation of `p.contains s`, and
`Not(Not(p)).contains s` equals `p.contains s`. -/
theorem claim9_not_involutive (p : IState) (s : ℤ) :
    (IState.InverseState (some p)).contains s =
      (p.contains s).map (fun t => !t) ∧
    (IState.InverseState (some (IState.InverseState (some p)))).contains s =
      p.contains s := by
  rcases h : p.contains s with _ | t
  · simp [IState.contains, h]
  · simp [IState.contains, h]

/-- Claim C10: the estimator discards the first draw of the seeded
generator: the returned value is computed from draws `2, …, n+1` (1-indexed)
of the distribution's draw sequence — `usedDraws` maps index `i` to stream
value `i + 1`, skipping stream value `0` — so the predicate is never
evaluated on the first drawn value. -/
theorem claim10_first_draw_discarded (pt : ProbabilityTest) (system : IState)
    (n seed : ℕ) (hwf : system.wf = true) :
    pt.test system n seed =
      some (fdiv ((usedDraws pt.E_min pt.E_max seed n).countP
        (containsTrue system)) n) :=
  pt.test_eq_usedDraws system n seed hwf

/-- Witness for claim C10 at a concrete input. -/
theorem claim10_witness :
    (ProbabilityTest.mk 0 1).test (IState.DiscreteState 1) 2 1 =
      some (fdiv ((usedDraws 0 1 1 2).countP
        (containsTrue (IState.DiscreteState 1))) 2) :=
  claim10_first_draw_discarded ⟨0, 1⟩ (IState.DiscreteState 1) 2 1 rfl
